import Mathlib

/-!
Verification development for the compliance-agent workflow engine.

The Python sources are embedded shallowly:
* floats are modelled as exact rationals (`ℚ`); every float appearing in the
  scoring path is produced from integer severity weights and the three
  category weights 0.5 / 0.3 / 0.2, so rational arithmetic matches the
  specification's intended real arithmetic;
* Python dicts with a known key set become Lean functions or association
  lists; absent keys become `Option`;
* fallible calls (LLM invocations, agent analysis) become oracle functions
  returning `Except`;
* `round(x, 2)` is modelled by half-even rounding (`pyRound`, `round2`),
  which is Python 3's rounding mode.
-/

/-- Violation dict as consumed by `ScoringService` (`scoring_service.py`):
only the keys `category` and `severity` are read there, each through
`dict.get`, hence `Option`-valued. -/
structure Violation where
  category : Option String
  severity : Option String
deriving DecidableEq, Repr

/-- Severity weights of `ScoringService.WEIGHTS` (`scoring_service.py`
lines 11-16) together with the `WEIGHTS.get(severity, 0)` default used at
line 78: critical 20, high 10, medium 3, low 2, anything else 0.  The dict
values are Python ints, hence `ℕ`. -/
def WEIGHTS (severity : String) : ℕ :=
  if severity = "critical" then 20
  else if severity = "high" then 10
  else if severity = "medium" then 3
  else if severity = "low" then 2
  else 0

/-- Category weights of `ScoringService.CATEGORY_WEIGHTS`
(`scoring_service.py` lines 19-23). -/
def CATEGORY_WEIGHTS (category : String) : ℚ :=
  if category = "irdai" then 0.50
  else if category = "brand" then 0.30
  else if category = "seo" then 0.20
  else 0

/-- Points deducted for one violation: `v.get("severity", "low")` then
`WEIGHTS.get(severity, 0)` (`scoring_service.py` lines 77-78). -/
def sevDeduction (v : Violation) : ℕ :=
  WEIGHTS (v.severity.getD "low")

/-- Embedding of `ScoringService._calculate_category_score`
(`scoring_service.py` lines 67-82): start from 100.0, subtract the weight
of every violation whose `category` equals the given one, clamp at 0. -/
def calculate_category_score (violations : List Violation) (category : String) : ℚ :=
  let category_violations := violations.filter (fun v => v.category == some category)
  let base_score := category_violations.foldl (fun acc v => acc - (sevDeduction v : ℚ)) (100.0 : ℚ)
  max 0 base_score

/-- Embedding of `ScoringService._get_grade` (`scoring_service.py`
lines 84-96). -/
def get_grade (score : ℚ) : String :=
  if 90 ≤ score then "A"
  else if 80 ≤ score then "B"
  else if 70 ≤ score then "C"
  else if 60 ≤ score then "D"
  else "F"

/-- Embedding of `ScoringService._get_status` (`scoring_service.py`
lines 98-109). -/
def get_status (violations : List Violation) (overall_score : ℚ) : String :=
  let has_critical := violations.any (fun v => v.severity == some "critical")
  if has_critical ∨ overall_score < 60 then "failed"
  else if overall_score < 80 then "flagged"
  else "passed"

/-- Half-even rounding of a rational to an integer, the rounding mode of
Python 3's builtin `round`. -/
def pyRound (q : ℚ) : ℤ :=
  let f : ℤ := Int.fdiv q.num q.den
  let r : ℤ := q.num - f * q.den
  if 2 * r < (q.den : ℤ) then f
  else if (q.den : ℤ) < 2 * r then f + 1
  else if f % 2 = 0 then f else f + 1

/-- Python's `round(x, 2)` on our rational model of floats. -/
def round2 (q : ℚ) : ℚ :=
  (pyRound (q * 100) : ℚ) / 100

/-- Result dict of `ScoringService.calculate_scores` (`scoring_service.py`
lines 58-65). -/
structure ScoreDict where
  overall : ℚ
  irdai : ℚ
  brand : ℚ
  seo : ℚ
  grade : String
  status : String
deriving DecidableEq, Repr

/-- Embedding of `ScoringService.calculate_scores` (`scoring_service.py`
lines 25-65).  Grade and status are computed from the un-rounded overall
score, exactly as in the source. -/
def calculate_scores (violations : List Violation) : ScoreDict :=
  let irdai_score := calculate_category_score violations "irdai"
  let brand_score := calculate_category_score violations "brand"
  let seo_score := calculate_category_score violations "seo"
  let overall_score :=
    irdai_score * CATEGORY_WEIGHTS "irdai" +
    brand_score * CATEGORY_WEIGHTS "brand" +
    seo_score * CATEGORY_WEIGHTS "seo"
  { overall := round2 overall_score
    irdai := round2 irdai_score
    brand := round2 brand_score
    seo := round2 seo_score
    grade := get_grade overall_score
    status := get_status violations overall_score }

/-! Helper lemmas about the scoring arithmetic. -/

theorem foldl_sub_eq_sub_sum (f : Violation → ℚ) :
    ∀ (l : List Violation) (a : ℚ),
      l.foldl (fun acc v => acc - f v) a = a - (l.map f).sum := by
  intro l
  induction l with
  | nil => intro a; simp
  | cons v t ih =>
    intro a
    simp only [List.foldl_cons, List.map_cons, List.sum_cons, ih]
    ring

/-- Deduction total of a category, as a natural number. -/
def categoryDeduction (violations : List Violation) (category : String) : ℕ :=
  ((violations.filter (fun v => v.category == some category)).map sevDeduction).sum

theorem calculate_category_score_eq (violations : List Violation) (category : String) :
    calculate_category_score violations category =
      max 0 (100 - (categoryDeduction violations category : ℚ)) := by
  unfold calculate_category_score categoryDeduction
  dsimp only
  rw [foldl_sub_eq_sub_sum]
  push_cast
  rw [List.map_map]
  norm_num [Function.comp_def]

theorem max_zero_sub_natCast (W : ℕ) :
    max 0 ((100 : ℚ) - (W : ℚ)) = ((100 - W : ℕ) : ℚ) := by
  rcases le_total W 100 with h | h
  · rw [max_eq_right]
    · push_cast [h]; ring
    · have : (W : ℚ) ≤ 100 := by exact_mod_cast h
      linarith
  · rw [Nat.sub_eq_zero_of_le h, max_eq_left]
    · simp
    · have : (100 : ℚ) ≤ (W : ℚ) := by exact_mod_cast h
      linarith

/-- Category scores are (casts of) natural numbers. -/
theorem calculate_category_score_natCast (violations : List Violation) (category : String) :
    calculate_category_score violations category =
      ((100 - categoryDeduction violations category : ℕ) : ℚ) := by
  rw [calculate_category_score_eq, max_zero_sub_natCast]

theorem pyRound_intCast (m : ℤ) : pyRound (m : ℚ) = m := by
  unfold pyRound
  simp [Rat.num_intCast, Rat.den_intCast, Int.fdiv_one]

theorem round2_eq_self_of_mul_int (q : ℚ) (m : ℤ) (h : q * 100 = (m : ℚ)) :
    round2 q = q := by
  unfold round2
  rw [h, pyRound_intCast]
  have h100 : (100 : ℚ) ≠ 0 := by norm_num
  field_simp at h ⊢
  linarith [h]

theorem round2_natCast (n : ℕ) : round2 ((n : ℕ) : ℚ) = (n : ℚ) := by
  apply round2_eq_self_of_mul_int _ (n * 100)
  push_cast
  ring

/-- Unrounded overall score of a violation list. -/
def overallScore (violations : List Violation) : ℚ :=
  calculate_category_score violations "irdai" * CATEGORY_WEIGHTS "irdai" +
  calculate_category_score violations "brand" * CATEGORY_WEIGHTS "brand" +
  calculate_category_score violations "seo" * CATEGORY_WEIGHTS "seo"

theorem round2_overallScore (violations : List Violation) :
    round2 (overallScore violations) = overallScore violations := by
  unfold overallScore
  rw [calculate_category_score_natCast violations "irdai",
      calculate_category_score_natCast violations "brand",
      calculate_category_score_natCast violations "seo"]
  apply round2_eq_self_of_mul_int _
    ((100 - categoryDeduction violations "irdai" : ℕ) * 50 +
     (100 - categoryDeduction violations "brand" : ℕ) * 30 +
     (100 - categoryDeduction violations "seo" : ℕ) * 20)
  unfold CATEGORY_WEIGHTS
  norm_num
  push_cast
  ring

/-- Evaluation lemma: the rounding steps in `calculate_scores` are the
identity on the values the scoring path can produce, so the returned dict
holds the exact category scores, the exact weighted overall score, and the
grade and status computed from that overall score. -/
theorem calculate_scores_eq (violations : List Violation) :
    calculate_scores violations =
      { overall := overallScore violations
        irdai := calculate_category_score violations "irdai"
        brand := calculate_category_score violations "brand"
        seo := calculate_category_score violations "seo"
        grade := get_grade (overallScore violations)
        status := get_status violations (overallScore violations) } := by
  unfold calculate_scores
  dsimp only
  have hi := round2_natCast (100 - categoryDeduction violations "irdai")
  have hb := round2_natCast (100 - categoryDeduction violations "brand")
  have hs := round2_natCast (100 - categoryDeduction violations "seo")
  have hov : calculate_category_score violations "irdai" * CATEGORY_WEIGHTS "irdai" +
      calculate_category_score violations "brand" * CATEGORY_WEIGHTS "brand" +
      calculate_category_score violations "seo" * CATEGORY_WEIGHTS "seo" = overallScore violations := rfl
  rw [hov, round2_overallScore]
  rw [calculate_category_score_natCast violations "irdai",
      calculate_category_score_natCast violations "brand",
      calculate_category_score_natCast violations "seo", hi, hb, hs]

theorem any_critical_iff (V : List Violation) :
    ((V.any fun v => v.severity == some "critical") = true) ↔
      ∃ v ∈ V, v.severity = some "critical" := by
  simp [List.any_eq_true]

/-- Propositional form of `_get_status`. -/
theorem get_status_eq (V : List Violation) (ov : ℚ) :
    get_status V ov =
      if (∃ v ∈ V, v.severity = some "critical") ∨ ov < 60 then "failed"
      else if ov < 80 then "flagged"
      else "passed" := by
  unfold get_status
  dsimp only
  by_cases hc : ∃ v ∈ V, v.severity = some "critical"
  · simp [(any_critical_iff V).mpr hc, hc]
  · have hfalse : (V.any fun v => v.severity == some "critical") = false := by
      rw [← Bool.not_eq_true]
      exact fun h => hc ((any_critical_iff V).mp h)
    simp [hfalse, hc]

theorem perm_any (f : Violation → Bool) {l1 l2 : List Violation} (h : l1.Perm l2) :
    l1.any f = l2.any f := by
  induction h with
  | nil => rfl
  | cons x _ ih => simp [List.any_cons, ih]
  | swap x y l =>
    simp only [List.any_cons]
    cases f x <;> cases f y <;> simp
  | trans _ _ ih1 ih2 => rw [ih1, ih2]

/-- C1: the scoring function returns status "failed" iff the violation list
contains a critical violation or the overall score is below 60; otherwise
"flagged" iff the overall score is below 80, and "passed" otherwise; and a
single critical violation forces "failed" regardless of the overall score. -/
theorem scoring_status_characterization (V : List Violation) :
    ((calculate_scores V).status = "failed" ↔
      (∃ v ∈ V, v.severity = some "critical") ∨ (calculate_scores V).overall < 60) ∧
    ((calculate_scores V).status = "flagged" ↔
      ¬(∃ v ∈ V, v.severity = some "critical") ∧
        60 ≤ (calculate_scores V).overall ∧ (calculate_scores V).overall < 80) ∧
    ((calculate_scores V).status = "passed" ↔
      ¬(∃ v ∈ V, v.severity = some "critical") ∧ 80 ≤ (calculate_scores V).overall) ∧
    (∀ v ∈ V, v.severity = some "critical" → (calculate_scores V).status = "failed") := by
  rw [calculate_scores_eq]
  dsimp only
  rw [get_status_eq]
  by_cases hc : ∃ v ∈ V, v.severity = some "critical"
  · rw [if_pos (Or.inl hc)]
    exact ⟨⟨fun _ => Or.inl hc, fun _ => rfl⟩,
      ⟨fun h => absurd h (by decide), fun ⟨hnc, _, _⟩ => absurd hc hnc⟩,
      ⟨fun h => absurd h (by decide), fun ⟨hnc, _⟩ => absurd hc hnc⟩,
      fun v hv hs => rfl⟩
  · by_cases h60 : overallScore V < 60
    · rw [if_pos (Or.inr h60)]
      exact ⟨⟨fun _ => Or.inr h60, fun _ => rfl⟩,
        ⟨fun h => absurd h (by decide), fun ⟨_, h, _⟩ => absurd h (not_le.mpr h60)⟩,
        ⟨fun h => absurd h (by decide), fun ⟨_, h⟩ => absurd h (not_le.mpr (by linarith))⟩,
        fun v hv hs => absurd ⟨v, hv, hs⟩ hc⟩
    · by_cases h80 : overallScore V < 80
      · rw [if_neg (fun hor => hor.elim hc h60), if_pos h80]
        exact ⟨⟨fun h => absurd h (by decide),
            fun hor => hor.elim (fun h => absurd h hc) (fun h => absurd h h60)⟩,
          ⟨fun _ => ⟨hc, not_lt.mp h60, h80⟩, fun _ => rfl⟩,
          ⟨fun h => absurd h (by decide), fun ⟨_, h⟩ => absurd h (not_le.mpr h80)⟩,
          fun v hv hs => absurd ⟨v, hv, hs⟩ hc⟩
      · rw [if_neg (fun hor => hor.elim hc h60), if_neg h80]
        exact ⟨⟨fun h => absurd h (by decide),
            fun hor => hor.elim (fun h => absurd h hc) (fun h => absurd h h60)⟩,
          ⟨fun h => absurd h (by decide), fun ⟨_, _, h⟩ => absurd h h80⟩,
          ⟨fun _ => ⟨hc, not_lt.mp h80⟩, fun _ => rfl⟩,
          fun v hv hs => absurd ⟨v, hv, hs⟩ hc⟩

/-- Witness for C1 at a concrete input: one critical irdai violation. -/
theorem scoring_status_characterization_witness :
    (calculate_scores [⟨some "irdai", some "critical"⟩]).status = "failed" :=
  (scoring_status_characterization [⟨some "irdai", some "critical"⟩]).2.2.2
    ⟨some "irdai", some "critical"⟩ (List.mem_singleton.mpr rfl) rfl

theorem CATEGORY_WEIGHTS_irdai : CATEGORY_WEIGHTS "irdai" = 0.50 := rfl

theorem CATEGORY_WEIGHTS_brand : CATEGORY_WEIGHTS "brand" = 0.30 := rfl

theorem CATEGORY_WEIGHTS_seo : CATEGORY_WEIGHTS "seo" = 0.20 := rfl

/-- C2: for every violation list and category, the per-category score is
100 minus the summed severity weights of that category's violations,
clamped below at 0, and is therefore never negative. -/
theorem category_score_formula (V : List Violation) (c : String) :
    calculate_category_score V c =
      max 0 (100 - ((V.filter (fun v => v.category == some c)).map
        (fun v => (WEIGHTS (v.severity.getD "low") : ℚ))).sum) ∧
    0 ≤ calculate_category_score V c := by
  constructor
  · rw [calculate_category_score_eq]
    unfold categoryDeduction sevDeduction
    push_cast
    rw [List.map_map]
    norm_num [Function.comp_def]
  · rw [calculate_category_score_eq]
    exact le_max_left 0 _

/-- C3: the overall score is the weighted sum of the three category scores
with fixed weights 0.50 / 0.30 / 0.20 summing to 1, and the grade is the
threshold letter of the overall score. -/
theorem overall_weighted_sum_and_grade (V : List Violation) :
    ((calculate_scores V).overall =
      (calculate_scores V).irdai * CATEGORY_WEIGHTS "irdai" +
      (calculate_scores V).brand * CATEGORY_WEIGHTS "brand" +
      (calculate_scores V).seo * CATEGORY_WEIGHTS "seo") ∧
    (CATEGORY_WEIGHTS "irdai" = 0.50 ∧ CATEGORY_WEIGHTS "brand" = 0.30 ∧
      CATEGORY_WEIGHTS "seo" = 0.20 ∧
      CATEGORY_WEIGHTS "irdai" + CATEGORY_WEIGHTS "brand" + CATEGORY_WEIGHTS "seo" = 1) ∧
    ((calculate_scores V).grade = "A" ↔ 90 ≤ (calculate_scores V).overall) ∧
    ((calculate_scores V).grade = "B" ↔
      80 ≤ (calculate_scores V).overall ∧ (calculate_scores V).overall < 90) ∧
    ((calculate_scores V).grade = "C" ↔
      70 ≤ (calculate_scores V).overall ∧ (calculate_scores V).overall < 80) ∧
    ((calculate_scores V).grade = "D" ↔
      60 ≤ (calculate_scores V).overall ∧ (calculate_scores V).overall < 70) ∧
    ((calculate_scores V).grade = "F" ↔ (calculate_scores V).overall < 60) := by
  rw [calculate_scores_eq]
  dsimp only
  refine ⟨rfl, ⟨CATEGORY_WEIGHTS_irdai, CATEGORY_WEIGHTS_brand, CATEGORY_WEIGHTS_seo,
    by rw [CATEGORY_WEIGHTS_irdai, CATEGORY_WEIGHTS_brand, CATEGORY_WEIGHTS_seo]; norm_num⟩, ?_⟩
  unfold get_grade
  split_ifs with h90 h80 h70 h60
  · exact ⟨⟨fun _ => h90, fun _ => rfl⟩,
      ⟨fun h => absurd h (by decide), fun ⟨_, h⟩ => absurd h90 (not_le.mpr h)⟩,
      ⟨fun h => absurd h (by decide), fun ⟨_, h⟩ => absurd h90 (not_le.mpr (by linarith))⟩,
      ⟨fun h => absurd h (by decide), fun ⟨_, h⟩ => absurd h90 (not_le.mpr (by linarith))⟩,
      ⟨fun h => absurd h (by decide), fun h => absurd h90 (not_le.mpr (by linarith))⟩⟩
  · exact ⟨⟨fun h => absurd h (by decide), fun h => absurd h h90⟩,
      ⟨fun _ => ⟨h80, not_le.mp h90⟩, fun _ => rfl⟩,
      ⟨fun h => absurd h (by decide), fun ⟨_, h⟩ => absurd h80 (not_le.mpr h)⟩,
      ⟨fun h => absurd h (by decide), fun ⟨_, h⟩ => absurd h80 (not_le.mpr (by linarith))⟩,
      ⟨fun h => absurd h (by decide), fun h => absurd h80 (not_le.mpr (by linarith))⟩⟩
  · exact ⟨⟨fun h => absurd h (by decide), fun h => absurd h h90⟩,
      ⟨fun h => absurd h (by decide), fun ⟨h, _⟩ => absurd h h80⟩,
      ⟨fun _ => ⟨h70, not_le.mp h80⟩, fun _ => rfl⟩,
      ⟨fun h => absurd h (by decide), fun ⟨_, h⟩ => absurd h70 (not_le.mpr h)⟩,
      ⟨fun h => absurd h (by decide), fun h => absurd h70 (not_le.mpr (by linarith))⟩⟩
  · exact ⟨⟨fun h => absurd h (by decide), fun h => absurd h h90⟩,
      ⟨fun h => absurd h (by decide), fun ⟨h, _⟩ => absurd h h80⟩,
      ⟨fun h => absurd h (by decide), fun ⟨h, _⟩ => absurd h h70⟩,
      ⟨fun _ => ⟨h60, not_le.mp h70⟩, fun _ => rfl⟩,
      ⟨fun h => absurd h (by decide), fun h => absurd h60 (not_le.mpr h)⟩⟩
  · exact ⟨⟨fun h => absurd h (by decide), fun h => absurd h h90⟩,
      ⟨fun h => absurd h (by decide), fun ⟨h, _⟩ => absurd h h80⟩,
      ⟨fun h => absurd h (by decide), fun ⟨h, _⟩ => absurd h h70⟩,
      ⟨fun h => absurd h (by decide), fun ⟨h, _⟩ => absurd h h60⟩,
      ⟨fun _ => not_le.mp h60, fun _ => rfl⟩⟩

/-- C4: scoring is independent of the order of the violation list. -/
theorem calculate_scores_perm (V W : List Violation) (h : V.Perm W) :
    calculate_scores V = calculate_scores W := by
  have hded : ∀ c, categoryDeduction V c = categoryDeduction W c := by
    intro c
    unfold categoryDeduction
    exact ((h.filter _).map _).sum_eq
  have hcat : ∀ c, calculate_category_score V c = calculate_category_score W c := by
    intro c
    rw [calculate_category_score_eq, calculate_category_score_eq, hded]
  have hov : overallScore V = overallScore W := by
    unfold overallScore
    rw [hcat "irdai", hcat "brand", hcat "seo"]
  have hst : ∀ x : ℚ, get_status V x = get_status W x := by
    intro x
    unfold get_status
    dsimp only
    rw [perm_any _ h]
  rw [calculate_scores_eq, calculate_scores_eq,
    hcat "irdai", hcat "brand", hcat "seo", hov, hst]

/-- Witness for C4: a concrete two-element list and its transposition. -/
theorem calculate_scores_perm_witness :
    calculate_scores [⟨some "irdai", some "high"⟩, ⟨some "brand", some "low"⟩] =
      calculate_scores [⟨some "brand", some "low"⟩, ⟨some "irdai", some "high"⟩] :=
  calculate_scores_perm _ _
    (List.Perm.swap (⟨some "brand", some "low"⟩ : Violation)
      (⟨some "irdai", some "high"⟩ : Violation) [])

/-- Violation in a category outside the three scored ones, with critical
severity. -/
def otherCritical : Violation :=
  { category := some "other", severity := some "critical" }

/-- C10: a violation whose category is none of irdai/brand/seo changes no
category score, no overall score and no grade, yet a critical one still
forces status "failed"; concretely the output overall 100 / grade "A" /
status "failed" is reachable. -/
theorem unscored_category_effect :
    (∀ (V : List Violation) (v : Violation),
      v.category ≠ some "irdai" → v.category ≠ some "brand" → v.category ≠ some "seo" →
      ((calculate_scores (v :: V)).irdai = (calculate_scores V).irdai ∧
       (calculate_scores (v :: V)).brand = (calculate_scores V).brand ∧
       (calculate_scores (v :: V)).seo = (calculate_scores V).seo ∧
       (calculate_scores (v :: V)).overall = (calculate_scores V).overall ∧
       (calculate_scores (v :: V)).grade = (calculate_scores V).grade) ∧
      (v.severity = some "critical" → (calculate_scores (v :: V)).status = "failed")) ∧
    calculate_scores [otherCritical] =
      { overall := 100, irdai := 100, brand := 100, seo := 100,
        grade := "A", status := "failed" } := by
  constructor
  · intro V v h1 h2 h3
    have hded : ∀ c : String, v.category ≠ some c →
        categoryDeduction (v :: V) c = categoryDeduction V c := by
      intro c hc
      unfold categoryDeduction
      rw [List.filter_cons]
      have : (v.category == some c) = false := by
        simp [hc]
      simp [this]
    have hcat : ∀ c : String, v.category ≠ some c →
        calculate_category_score (v :: V) c = calculate_category_score V c := by
      intro c hc
      rw [calculate_category_score_eq, calculate_category_score_eq, hded c hc]
    have hov : overallScore (v :: V) = overallScore V := by
      unfold overallScore
      rw [hcat "irdai" h1, hcat "brand" h2, hcat "seo" h3]
    constructor
    · rw [calculate_scores_eq, calculate_scores_eq]
      exact ⟨hcat "irdai" h1, hcat "brand" h2, hcat "seo" h3, hov, by rw [hov]⟩
    · intro hs
      rw [calculate_scores_eq]
      dsimp only
      rw [get_status_eq, if_pos (Or.inl ⟨v, List.mem_cons_self v V, hs⟩)]
  · rw [calculate_scores_eq]
    have hded : ∀ c ∈ ["irdai", "brand", "seo"], categoryDeduction [otherCritical] c = 0 := by
      decide
    have hcat : ∀ c ∈ ["irdai", "brand", "seo"],
        calculate_category_score [otherCritical] c = 100 := by
      intro c hc
      rw [calculate_category_score_eq, hded c hc]
      norm_num
    have hov : overallScore [otherCritical] = 100 := by
      unfold overallScore
      rw [hcat "irdai" (by decide), hcat "brand" (by decide), hcat "seo" (by decide),
        CATEGORY_WEIGHTS_irdai, CATEGORY_WEIGHTS_brand, CATEGORY_WEIGHTS_seo]
      norm_num
    have hgrade : get_grade 100 = "A" := by
      unfold get_grade
      rw [if_pos (by norm_num)]
    have hstatus : get_status [otherCritical] 100 = "failed" := by
      rw [get_status_eq,
        if_pos (Or.inl ⟨otherCritical, List.mem_singleton.mpr rfl, rfl⟩)]
    rw [hcat "irdai" (by decide), hcat "brand" (by decide), hcat "seo" (by decide),
      hov, hgrade, hstatus]

/-- Witness for C10 at a concrete input: the unscored critical violation on
top of one high irdai violation keeps all numeric scores and the grade, and
the status is "failed". -/
theorem unscored_category_effect_witness :
    ((calculate_scores [otherCritical, ⟨some "irdai", some "high"⟩]).irdai =
      (calculate_scores [⟨some "irdai", some "high"⟩]).irdai ∧
     (calculate_scores [otherCritical, ⟨some "irdai", some "high"⟩]).brand =
      (calculate_scores [⟨some "irdai", some "high"⟩]).brand ∧
     (calculate_scores [otherCritical, ⟨some "irdai", some "high"⟩]).seo =
      (calculate_scores [⟨some "irdai", some "high"⟩]).seo ∧
     (calculate_scores [otherCritical, ⟨some "irdai", some "high"⟩]).overall =
      (calculate_scores [⟨some "irdai", some "high"⟩]).overall ∧
     (calculate_scores [otherCritical, ⟨some "irdai", some "high"⟩]).grade =
      (calculate_scores [⟨some "irdai", some "high"⟩]).grade) ∧
    (calculate_scores [otherCritical, ⟨some "irdai", some "high"⟩]).status = "failed" :=
  (unscored_category_effect.1 [⟨some "irdai", some "high"⟩] otherCritical
    (by decide) (by decide) (by decide)).imp id (fun h => h rfl)

/-- Rule row (`models/rule.py`). The `project_id` column is referenced by
`ComplianceEngine._load_active_rules`, `routes/projects.py` and
`project_service.py` although the copy of `models/rule.py` in the tree does
not declare it; it is modelled as the spec's optional project identifier
(absence means the global rule set). -/
structure Rule where
  id : String
  category : String
  rule_text : String
  severity : String
  keywords : List String
  pattern : Option String
  is_active : Bool
  project_id : Option String
deriving DecidableEq, Repr

/-- Severity ranks of `_load_active_rules` (`compliance_engine.py`
line 476), with the `.get(severity, 0)` default. -/
def severity_order (s : String) : ℕ :=
  if s = "critical" then 4
  else if s = "high" then 3
  else if s = "medium" then 2
  else if s = "low" then 1
  else 0

/-- Comparison used to model `rules.sort(key=severity_order, reverse=True)`:
Python's sort is stable, and `List.mergeSort` with this `le` (which prefers
the left element on ties) is the stable descending sort by
`severity_order`. -/
def ruleLe (a b : Rule) : Bool :=
  severity_order b.severity ≤ severity_order a.severity

/-- SQLAlchemy query of `_load_active_rules` (`compliance_engine.py`
lines 466-473): active rules, filtered by project (a concrete project id,
or the global rules with no project). The list `db` is the rules table in
retrieval order. -/
def activeRulesQuery (db : List Rule) (project_id : Option String) : List Rule :=
  let active := db.filter (fun r => r.is_active)
  match project_id with
  | some pid => active.filter (fun r => r.project_id == some pid)
  | none => active.filter (fun r => r.project_id == none)

/-- One step of the grouping loop of `_load_active_rules`
(`compliance_engine.py` lines 481-485): ensure the key exists, then append
the rule to its category's list. -/
def insertRule (m : List (String × List Rule)) (r : Rule) : List (String × List Rule) :=
  let m1 := if m.any (fun p => p.1 == r.category) then m else m ++ [(r.category, [])]
  m1.map (fun p => if p.1 == r.category then (p.1, p.2 ++ [r]) else p)

/-- Embedding of `ComplianceEngine._load_active_rules`
(`compliance_engine.py` lines 463-487): filter active and project rules,
stable-sort by severity rank descending, group into a dict seeded with the
three default categories. -/
def load_active_rules (db : List Rule) (project_id : Option String) :
    List (String × List Rule) :=
  let rules := (activeRulesQuery db project_id).mergeSort ruleLe
  rules.foldl insertRule [("irdai", []), ("brand", []), ("seo", [])]

/-- Dict lookup on the association-list model of a Python dict. -/
def lookupKey (m : List (String × List Rule)) (c : String) : Option (List Rule) :=
  match m with
  | [] => none
  | p :: t => if p.1 = c then some p.2 else lookupKey t c

/-- Category selection of `analysis_node` (`graph/nodes.py` line 115):
keep only categories whose rule list is non-empty. -/
def activeCategories {α : Type} (rules : List (String × List α)) : List String :=
  (rules.filter (fun p => !p.2.isEmpty)).map Prod.fst

/-- Content chunk as carried in the graph state (`graph/nodes.py`
lines 46-54): id, text, index and the page-number metadata read at
line 180. -/
structure Chunk where
  id : String
  text : String
  chunk_index : ℕ
  page_number : Option ℕ
deriving DecidableEq, Repr

/-- Task creation loop of `analysis_node` (`graph/nodes.py` lines 200-203):
one task per chunk and active category, chunks outermost. -/
def taskPairs (chunks : List Chunk) (cats : List String) : List (String × Chunk) :=
  chunks.flatMap (fun ch => cats.map (fun c => (c, ch)))

/-! Dictionary lemmas for the grouping loop. -/

theorem lookupKey_map_append (m : List (String × List Rule)) (r : Rule) (c : String) :
    lookupKey (m.map (fun p => if p.1 == r.category then (p.1, p.2 ++ [r]) else p)) c =
      if c = r.category then (lookupKey m c).map (fun l => l ++ [r])
      else lookupKey m c := by
  simp only [beq_iff_eq]
  induction m with
  | nil => by_cases h : c = r.category <;> simp [lookupKey, h]
  | cons p t ih =>
    by_cases hpc : p.1 = r.category
    · rw [List.map_cons, if_pos (by simp [hpc])]
      by_cases hc : p.1 = c
      · have hcr : c = r.category := by rw [← hc]; exact hpc
        simp [lookupKey, hc, hcr]
      · simp [lookupKey, hc, ih]
    · rw [List.map_cons, if_neg (by simp [hpc])]
      by_cases hc : p.1 = c
      · have hcr : ¬c = r.category := fun h => hpc (hc ▸ h)
        simp [lookupKey, hc, hcr]
      · simp [lookupKey, hc, ih]

theorem lookupKey_append_single (m : List (String × List Rule)) (k c : String)
    (l : List Rule) :
    lookupKey (m ++ [(k, l)]) c =
      match lookupKey m c with
      | some v => some v
      | none => if k = c then some l else none := by
  induction m with
  | nil => by_cases h : k = c <;> simp [lookupKey, h]
  | cons p t ih =>
    by_cases hc : p.1 = c <;> simp [lookupKey, hc, ih]

theorem any_key_iff_lookupKey_isSome (m : List (String × List Rule)) (c : String) :
    (m.any (fun p => p.1 == c)) = true ↔ (lookupKey m c).isSome := by
  induction m with
  | nil => simp [lookupKey]
  | cons p t ih =>
    by_cases hc : p.1 = c <;> simp [lookupKey, hc, ih]

theorem lookupKey_insertRule (m : List (String × List Rule)) (r : Rule) (c : String) :
    lookupKey (insertRule m r) c =
      if c = r.category then some (((lookupKey m c).getD []) ++ [r])
      else lookupKey m c := by
  unfold insertRule
  dsimp only
  by_cases hk : (m.any (fun p => p.1 == r.category)) = true
  · rw [if_pos hk, lookupKey_map_append]
    by_cases hc : c = r.category
    · rw [if_pos hc, if_pos hc]
      have hsome : (lookupKey m c).isSome := by
        rw [hc]
        exact (any_key_iff_lookupKey_isSome m r.category).mp hk
      obtain ⟨v, hv⟩ := Option.isSome_iff_exists.mp hsome
      rw [hv]
      rfl
    · rw [if_neg hc, if_neg hc]
  · rw [if_neg hk, lookupKey_map_append, lookupKey_append_single]
    by_cases hc : c = r.category
    · have hnone : lookupKey m c = none := by
        rw [hc]
        cases h : lookupKey m r.category with
        | none => rfl
        | some v =>
          exact absurd ((any_key_iff_lookupKey_isSome m r.category).mpr
            (by rw [h]; rfl)) hk
      rw [if_pos hc, hnone]
      simp [hc]
    · rw [if_neg hc, if_neg hc]
      cases h : lookupKey m c with
      | none =>
        dsimp only
        rw [if_neg (fun hh => hc hh.symm)]
      | some v => rfl

theorem ruleLe_trans : ∀ a b c : Rule,
    ruleLe a b = true → ruleLe b c = true → ruleLe a c = true := by
  intro a b c hab hbc
  unfold ruleLe at *
  simp only [decide_eq_true_eq] at *
  omega

theorem ruleLe_total : ∀ a b : Rule, (ruleLe a b || ruleLe b a) = true := by
  intro a b
  unfold ruleLe
  simp only [Bool.or_eq_true, decide_eq_true_eq]
  omega

/-- Stability of the modelled sort: a filter whose matching elements are
mutually tied under `ruleLe` is unchanged by the sort. -/
theorem mergeSort_filter_ties (l : List Rule) (p : Rule → Bool)
    (hp : ∀ a b, p a = true → p b = true → ruleLe a b = true) :
    (l.mergeSort ruleLe).filter p = l.filter p := by
  have hpair : (l.filter p).Pairwise (fun a b => ruleLe a b = true) :=
    List.pairwise_of_forall_mem_list
      (fun a ha b hb => hp a b (List.of_mem_filter ha) (List.of_mem_filter hb))
  have hsub : (l.filter p).Sublist (l.mergeSort ruleLe) :=
    List.sublist_mergeSort ruleLe_trans ruleLe_total hpair (List.filter_sublist l)
  have hsub2 : ((l.filter p).filter p).Sublist ((l.mergeSort ruleLe).filter p) :=
    hsub.filter p
  have hff : (l.filter p).filter p = l.filter p := by
    rw [List.filter_filter]
    simp only [Bool.and_self]
  rw [hff] at hsub2
  have hperm : ((l.mergeSort ruleLe).filter p).Perm (l.filter p) :=
    (l.mergeSort_perm ruleLe).filter p
  exact (hsub2.eq_of_length hperm.length_eq.symm).symm

theorem lookupKey_foldl_insert :
    ∀ (rules : List Rule) (m : List (String × List Rule)) (c : String),
      lookupKey (rules.foldl insertRule m) c =
        if (lookupKey m c).isSome ∨ c ∈ rules.map Rule.category
        then some (((lookupKey m c).getD []) ++
          rules.filter (fun r => r.category == c))
        else none := by
  intro rules
  induction rules with
  | nil =>
    intro m c
    cases h : lookupKey m c with
    | none => simp [h]
    | some v => simp [h]
  | cons r rs ih =>
    intro m c
    rw [List.foldl_cons, ih (insertRule m r) c, lookupKey_insertRule]
    by_cases hc : c = r.category
    · rw [if_pos hc]
      simp only [Option.isSome_some, true_or, if_true, Option.getD_some]
      rw [if_pos (Or.inr (by simp [hc]))]
      have hbeq : (r.category == c) = true := by simp [hc]
      simp [List.filter_cons, hbeq]
    · rw [if_neg hc]
      have hfilter : (r :: rs).filter (fun r' => r'.category == c) =
          rs.filter (fun r' => r'.category == c) := by
        rw [List.filter_cons]
        have : (r.category == c) = false := by
          simp only [beq_eq_false_iff_ne, ne_eq]
          exact fun h => hc h.symm
        simp [this]
      by_cases hcond : (lookupKey m c).isSome ∨ c ∈ rs.map Rule.category
      · rw [if_pos hcond,
          if_pos (hcond.imp id (fun h => by simp only [List.map_cons, List.mem_cons]; exact Or.inr h)),
          hfilter]
      · rw [if_neg hcond, if_neg ?hng]
        case hng =>
          intro hor
          apply hcond
          rcases hor with h | h
          · exact Or.inl h
          · rcases List.mem_cons.mp h with h | h
            · exact absurd h hc
            · exact Or.inr h

theorem lookupKey_init (c : String) :
    lookupKey [("irdai", ([] : List Rule)), ("brand", []), ("seo", [])] c =
      if c = "irdai" ∨ c = "brand" ∨ c = "seo" then some [] else none := by
  by_cases h1 : c = "irdai"
  · subst h1; decide
  · by_cases h2 : c = "brand"
    · subst h2; decide
    · by_cases h3 : c = "seo"
      · subst h3; decide
      · have n1 : ¬("irdai" = c) := fun h => h1 h.symm
        have n2 : ¬("brand" = c) := fun h => h2 h.symm
        have n3 : ¬("seo" = c) := fun h => h3 h.symm
        simp [lookupKey, n1, n2, n3, h1, h2, h3]

theorem lookupKey_load_active_rules (db : List Rule) (pid : Option String) (c : String) :
    lookupKey (load_active_rules db pid) c =
      if c = "irdai" ∨ c = "brand" ∨ c = "seo" ∨
         c ∈ ((activeRulesQuery db pid).mergeSort ruleLe).map Rule.category
      then some (((activeRulesQuery db pid).mergeSort ruleLe).filter
        (fun r => r.category == c))
      else none := by
  unfold load_active_rules
  dsimp only
  rw [lookupKey_foldl_insert, lookupKey_init]
  by_cases h : c = "irdai" ∨ c = "brand" ∨ c = "seo"
  · rw [if_pos h]
    simp only [Option.isSome_some, true_or, if_true, Option.getD_some, List.nil_append]
    rw [if_pos (by tauto)]
  · rw [if_neg h]
    by_cases hm : c ∈ ((activeRulesQuery db pid).mergeSort ruleLe).map Rule.category
    · rw [if_pos (Or.inr hm), if_pos (by tauto)]
      simp
    · rw [if_neg (fun hor => hor.elim (fun hs => by simp at hs) hm),
        if_neg (by tauto)]

theorem keys_insertRule (m : List (String × List Rule)) (r : Rule) :
    (insertRule m r).map Prod.fst =
      if (m.any fun p => p.1 == r.category) then m.map Prod.fst
      else m.map Prod.fst ++ [r.category] := by
  unfold insertRule
  dsimp only
  have hmap : ∀ (mm : List (String × List Rule)),
      (mm.map (fun p => if p.1 == r.category then (p.1, p.2 ++ [r]) else p)).map Prod.fst =
        mm.map Prod.fst := by
    intro mm
    rw [List.map_map]
    apply List.map_congr_left
    intro p _
    by_cases h : (p.1 == r.category) = true <;> simp [h, Function.comp]
  by_cases hk : (m.any fun p => p.1 == r.category) = true
  · rw [if_pos hk, if_pos hk, hmap]
  · rw [if_neg hk, if_neg hk, hmap, List.map_append]
    rfl

theorem nodup_keys_foldl :
    ∀ (rules : List Rule) (m : List (String × List Rule)),
      ((m.map Prod.fst).Nodup) → (((rules.foldl insertRule m).map Prod.fst).Nodup) := by
  intro rules
  induction rules with
  | nil => intro m h; exact h
  | cons r rs ih =>
    intro m h
    rw [List.foldl_cons]
    apply ih
    rw [keys_insertRule]
    by_cases hk : (m.any fun p => p.1 == r.category) = true
    · rw [if_pos hk]; exact h
    · rw [if_neg hk]
      have hnm : r.category ∉ m.map Prod.fst := by
        intro hmem
        apply hk
        rw [List.any_eq_true]
        obtain ⟨p, hp, hfst⟩ := List.mem_map.mp hmem
        exact ⟨p, hp, by simp [hfst]⟩
      rw [List.nodup_append]
      exact ⟨h, List.nodup_singleton _, fun a ha hb => by
        simp only [List.mem_singleton] at hb
        exact hnm (hb ▸ ha)⟩

theorem lookupKey_of_mem_nodup :
    ∀ (m : List (String × List Rule)) (c : String) (l : List Rule),
      ((m.map Prod.fst).Nodup) → (c, l) ∈ m → lookupKey m c = some l := by
  intro m
  induction m with
  | nil => intro c l _ h; cases h
  | cons p t ih =>
    intro c l hnd hmem
    rcases List.mem_cons.mp hmem with h | h
    · rw [← h]
      simp [lookupKey]
    · have hc : ¬p.1 = c := by
        intro he
        exact (List.nodup_cons.mp hnd).1
          (he ▸ List.mem_map.mpr ⟨(c, l), h, rfl⟩)
      simp [lookupKey, hc, ih c l (List.nodup_cons.mp hnd).2 h]

theorem mem_of_lookupKey :
    ∀ (m : List (String × List Rule)) (c : String) (l : List Rule),
      lookupKey m c = some l → (c, l) ∈ m := by
  intro m
  induction m with
  | nil => intro c l h; cases h
  | cons p t ih =>
    intro c l h
    by_cases hc : p.1 = c
    · simp only [lookupKey, if_pos hc] at h
      obtain rfl := Option.some_injective _ h
      exact List.mem_cons.mpr (Or.inl (by rw [← hc]))
    · simp only [lookupKey, if_neg hc] at h
      exact List.mem_cons.mpr (Or.inr (ih c l h))

theorem mem_activeCategories_iff (m : List (String × List Rule))
    (hnd : (m.map Prod.fst).Nodup) (c : String) :
    c ∈ activeCategories m ↔ ∃ l, lookupKey m c = some l ∧ l ≠ [] := by
  unfold activeCategories
  constructor
  · intro h
    obtain ⟨p, hp, hfst⟩ := List.mem_map.mp h
    obtain ⟨k, v⟩ := p
    simp only at hfst
    have hpf := List.mem_filter.mp hp
    refine ⟨v, ?_, ?_⟩
    · have hlk := lookupKey_of_mem_nodup m k v hnd hpf.1
      rw [hfst] at hlk
      exact hlk
    · intro hv
      subst hv
      simpa using hpf.2
  · rintro ⟨l, hl, hne⟩
    exact List.mem_map.mpr ⟨(c, l),
      List.mem_filter.mpr ⟨mem_of_lookupKey m c l hl, by simp [hne]⟩, rfl⟩

theorem mem_taskPairs (chunks : List Chunk) (cats : List String)
    (c : String) (ch : Chunk) :
    (c, ch) ∈ taskPairs chunks cats ↔ c ∈ cats ∧ ch ∈ chunks := by
  unfold taskPairs
  simp only [List.mem_flatMap, List.mem_map, Prod.mk.injEq]
  constructor
  · rintro ⟨a, ha, c', hc', he1, he2⟩
    exact ⟨he1 ▸ hc', he2 ▸ ha⟩
  · rintro ⟨hc, hch⟩
    exact ⟨ch, hch, c, hc, rfl, rfl⟩

/-- C8: loading active rules yields a mapping whose three configured
categories are always present (as empty lists when no rule matches), whose
lists contain only active project-matching rules of that category, each
list sorted by severity rank descending with equal-rank rules keeping their
original relative order; and the dispatcher builds tasks exactly for the
categories whose list is non-empty. -/
theorem load_active_rules_contract (db : List Rule) (pid : Option String) :
    (∀ c ∈ (["irdai", "brand", "seo"] : List String),
      ∃ l, lookupKey (load_active_rules db pid) c = some l) ∧
    (∀ c l, lookupKey (load_active_rules db pid) c = some l →
      ∀ r ∈ l, r.is_active = true ∧ r.category = c ∧ r.project_id = pid) ∧
    (∀ c l, lookupKey (load_active_rules db pid) c = some l →
      l.Pairwise (fun a b => severity_order b.severity ≤ severity_order a.severity)) ∧
    (∀ c l, lookupKey (load_active_rules db pid) c = some l →
      ∀ k : ℕ, l.filter (fun r => severity_order r.severity == k) =
        (activeRulesQuery db pid).filter
          (fun r => (severity_order r.severity == k) && (r.category == c))) ∧
    (∀ c, c ∈ activeCategories (load_active_rules db pid) ↔
      ∃ l, lookupKey (load_active_rules db pid) c = some l ∧ l ≠ []) ∧
    (∀ (chunks : List Chunk) (c : String) (ch : Chunk),
      (c, ch) ∈ taskPairs chunks (activeCategories (load_active_rules db pid)) ↔
        c ∈ activeCategories (load_active_rules db pid) ∧ ch ∈ chunks) := by
  have hval : ∀ c l, lookupKey (load_active_rules db pid) c = some l →
      l = ((activeRulesQuery db pid).mergeSort ruleLe).filter
        (fun r => r.category == c) := by
    intro c l hl
    rw [lookupKey_load_active_rules] at hl
    by_cases hcond : c = "irdai" ∨ c = "brand" ∨ c = "seo" ∨
        c ∈ ((activeRulesQuery db pid).mergeSort ruleLe).map Rule.category
    · rw [if_pos hcond] at hl
      exact (Option.some_injective _ hl).symm
    · rw [if_neg hcond] at hl
      cases hl
  have hmemQ : ∀ r, r ∈ activeRulesQuery db pid →
      r.is_active = true ∧ r.project_id = pid := by
    intro r hr
    unfold activeRulesQuery at hr
    cases pid with
    | some p =>
      simp only at hr
      have h2 := List.mem_filter.mp hr
      have h1 := List.mem_filter.mp h2.1
      exact ⟨h1.2, by simpa using h2.2⟩
    | none =>
      simp only at hr
      have h2 := List.mem_filter.mp hr
      have h1 := List.mem_filter.mp h2.1
      exact ⟨h1.2, by simpa using h2.2⟩
  have hnodup : ((load_active_rules db pid).map Prod.fst).Nodup := by
    unfold load_active_rules
    exact nodup_keys_foldl _ _ (by decide)
  refine ⟨?_, ?_, ?_, ?_, ?_, ?_⟩
  · intro c hc
    have hcnd : c = "irdai" ∨ c = "brand" ∨ c = "seo" ∨
        c ∈ ((activeRulesQuery db pid).mergeSort ruleLe).map Rule.category := by
      simp only [List.mem_cons, List.not_mem_nil, or_false] at hc
      tauto
    exact ⟨_, by rw [lookupKey_load_active_rules, if_pos hcnd]⟩
  · intro c l hl r hr
    rw [hval c l hl] at hr
    have hf := List.mem_filter.mp hr
    have hmem : r ∈ activeRulesQuery db pid :=
      ((activeRulesQuery db pid).mergeSort_perm ruleLe).subset hf.1
    have hq := hmemQ r hmem
    exact ⟨hq.1, by simpa using hf.2, hq.2⟩
  · intro c l hl
    rw [hval c l hl]
    have hsorted : ((activeRulesQuery db pid).mergeSort ruleLe).Pairwise
        (fun a b => ruleLe a b = true) :=
      List.sorted_mergeSort ruleLe_trans ruleLe_total (activeRulesQuery db pid)
    have hpw : (((activeRulesQuery db pid).mergeSort ruleLe).filter
        (fun r => r.category == c)).Pairwise (fun a b => ruleLe a b = true) :=
      hsorted.sublist (List.filter_sublist _)
    exact hpw.imp (fun hab => by simpa [ruleLe] using hab)
  · intro c l hl k
    rw [hval c l hl, List.filter_filter]
    apply mergeSort_filter_ties
    intro a b ha hb
    have ha' := (Bool.and_eq_true _ _).mp ha
    have hb' := (Bool.and_eq_true _ _).mp hb
    have hka : severity_order a.severity = k := by simpa using ha'.1
    have hkb : severity_order b.severity = k := by simpa using hb'.1
    unfold ruleLe
    simp only [decide_eq_true_eq, hka, hkb]
    exact le_refl k
  · intro c
    exact mem_activeCategories_iff (load_active_rules db pid) hnodup c
  · intro chunks c ch
    exact mem_taskPairs chunks (activeCategories (load_active_rules db pid)) c ch

/-- Witness for C8 at a concrete input: on an empty rules table with no
project filter, the "seo" key is still present in the mapping. -/
theorem load_active_rules_contract_witness :
    ∃ l, lookupKey (load_active_rules [] none) "seo" = some l :=
  (load_active_rules_contract [] none).1 "seo" (by decide)

/-- Violation schema produced by agents
(`schemas/compliance_schemas.py` lines 4-12). -/
structure ViolationSchema where
  category : String
  severity : String
  rule_id : Option String
  description : String
  v_location : Option String
  current_text : Option String
  suggested_fix : Option String
  auto_fixable : Bool
deriving DecidableEq, Repr

/-- Agent analysis result (`schemas/compliance_schemas.py` lines 14-17). -/
structure ComplianceAnalysisResult where
  violations : List ViolationSchema
  overall_assessment : String
  key_issues : List String
deriving DecidableEq, Repr

/-- Violation dict after the annotation loop of `process_task`
(`graph/nodes.py` lines 173-184): the schema fields plus `chunk_id`,
`chunk_index` and the derived `location` string. -/
structure AnnotatedViolation where
  base : ViolationSchema
  chunk_id : String
  chunk_index : ℕ
  location : String
deriving DecidableEq, Repr

/-- Location string built at `graph/nodes.py` lines 178-182; the
`if meta.get("page_number"):` check is Python truthiness, so a page number
of 0 adds no suffix. -/
def locationOf (chunk : Chunk) : String :=
  let loc := "chunk:" ++ chunk.id
  match chunk.page_number with
  | some n => if n = 0 then loc else loc ++ ":page:" ++ toString n
  | none => loc

/-- Annotation of one completed task's violations (`graph/nodes.py`
lines 173-184). -/
def annotateViolations (chunk : Chunk) (res : ComplianceAnalysisResult) :
    List AnnotatedViolation :=
  res.violations.map (fun v =>
    { base := v
      chunk_id := chunk.id
      chunk_index := chunk.chunk_index
      location := locationOf chunk })

/-- Execution-ledger row for one task (`models/agent_execution.py` as
written by `process_task`, `graph/nodes.py` lines 133-190): agent type,
input preview, terminal status, and the output payload or error detail. -/
structure LedgerRecord where
  agent_type : String
  input_chunk_index : ℕ
  input_text_preview : String
  status : String
  output : Except String ComplianceAnalysisResult
deriving Repr

/-- Oracle for `agent.analyze` (`graph/nodes.py` line 152): given the
category and the chunk, either a structured result or a raised exception's
message. -/
def EvalOracle : Type :=
  String → Chunk → Except String ComplianceAnalysisResult

/-- Embedding of `process_task` (`graph/nodes.py` lines 119-197): on
success the annotated violations are returned and the ledger row is marked
completed with the payload; on failure the task contributes no violations
and the row is marked failed with the error detail. The function is total:
the inner `except` absorbs the failure. -/
def process_task (evalO : EvalOracle) (category : String) (chunk : Chunk) :
    List AnnotatedViolation × LedgerRecord :=
  match evalO category chunk with
  | .ok res =>
    (annotateViolations chunk res,
     { agent_type := category
       input_chunk_index := chunk.chunk_index
       input_text_preview := chunk.text.take 100
       status := "completed"
       output := .ok res })
  | .error e =>
    ([],
     { agent_type := category
       input_chunk_index := chunk.chunk_index
       input_text_preview := chunk.text.take 100
       status := "failed"
       output := .error e })

/-- Ledger rows written by one `analysis_node` run, in task order. -/
def analysisLedger (evalO : EvalOracle) (chunks : List Chunk) (cats : List String) :
    List LedgerRecord :=
  (taskPairs chunks cats).map (fun p => (process_task evalO p.1 p.2).2)

/-- Violation accumulation of `analysis_node` (`graph/nodes.py`
lines 205-209): `new_violations.extend(res)` over the gathered results. -/
def analysisViolations (evalO : EvalOracle) (chunks : List Chunk) (cats : List String) :
    List AnnotatedViolation :=
  ((taskPairs chunks cats).map (fun p => (process_task evalO p.1 p.2).1)).foldl (· ++ ·) []

/-- Conversion from an annotated violation dict to the keys read by the
scoring service: `category` and `severity` are always present in the
schema. -/
def toScoringViolation (v : AnnotatedViolation) : Violation :=
  { category := some v.base.category, severity := some v.base.severity }

/-- Graph state (`graph/state.py`), restricted to the fields the
compliance path reads and writes; `violations` carries the
`operator.add` reducer. -/
structure GState where
  submission_id : String
  project_id : Option String
  chunks : List Chunk
  active_rules : List (String × List Rule)
  violations : List AnnotatedViolation
  scores : Option ScoreDict
  status : String
  user_feedback : Option String
deriving Repr

/-- Embedding of `preprocess_node` (`graph/nodes.py` lines 26-66): the
preprocessing service either produces the chunk list or raises, in which
case the node sets status "failed" (and the graph still proceeds along its
static edges). -/
def preprocess_node (pre : Except String (List Chunk)) (s : GState) : GState :=
  match pre with
  | .ok cs => { s with chunks := cs }
  | .error _ => { s with status := "failed" }

/-- Embedding of `dispatch_node` (`graph/nodes.py` lines 68-99): loads the
active rules and serializes only the categories with a non-empty list into
the state. -/
def dispatch_node (db : List Rule) (s : GState) : GState :=
  { s with active_rules :=
      (load_active_rules db s.project_id).filter (fun p => !p.2.isEmpty) }

/-- Embedding of `analysis_node` (`graph/nodes.py` lines 101-214): runs
one task per chunk and active category and appends the collected
violations (the `operator.add` reducer on `violations`). -/
def analysis_node (evalO : EvalOracle) (s : GState) : GState :=
  { s with violations := s.violations ++
      analysisViolations evalO s.chunks (activeCategories s.active_rules) }

/-- Embedding of `scoring_node` (`graph/nodes.py` lines 216-229). The
imported `agents/compliance/scoring.py` module is not in the tree; per the
spec the scoring engine is the pure function `score(violations)` and it is
modelled by the `ScoringService` embedding above. -/
def scoring_node (s : GState) : GState :=
  { s with scores := some (calculate_scores (s.violations.map toScoringViolation)) }

/-- Embedding of `refinement_node` (`graph/nodes.py` lines 231-243): reads
the feedback and emits only a message; the modelled state is unchanged. -/
def refinement_node (s : GState) : GState :=
  s

/-- Compiled LangGraph model: named nodes, static edges, and the
`interrupt_before` list handed to `workflow.compile`. -/
structure StateGraphDef where
  nodes : List (String × (GState → GState))
  edges : List (String × String)
  interrupt_before : List String

def nodeFn (g : StateGraphDef) (name : String) : Option (GState → GState) :=
  (g.nodes.find? (fun p => p.1 == name)).map Prod.snd

def nextNode (g : StateGraphDef) (cur : String) : Option String :=
  (g.edges.find? (fun e => e.1 == cur)).map Prod.snd

/-- Outcome of one graph invocation: ran to END, or suspended before an
`interrupt_before` node, with the trace of executed node names. -/
inductive RunResult where
  | finished (s : GState) (trace : List String)
  | paused (next : String) (s : GState) (trace : List String)
  | stuck
deriving Repr

/-- Execution semantics of the compiled graph: follow the static edges,
and suspend before executing any node listed in `interrupt_before`. -/
def runFrom (g : StateGraphDef) : ℕ → String → GState → List String → RunResult
  | 0, _, _, _ => .stuck
  | fuel + 1, cur, s, trace =>
    if cur = "END" then .finished s trace
    else if cur ∈ g.interrupt_before then .paused cur s trace
    else
      match nodeFn g cur, nextNode g cur with
      | some f, some nxt => runFrom g fuel nxt (f s) (trace ++ [cur])
      | _, _ => .stuck

/-- `graph.ainvoke(initial_state)`: start from START and run until END or
an interrupt. -/
def graph_ainvoke (g : StateGraphDef) (s : GState) : RunResult :=
  match nextNode g "START" with
  | some first => runFrom g 16 first s []
  | none => .stuck

/-- `graph.ainvoke(None)` on a paused thread: execute the pending
interrupted node, then continue along the edges. -/
def graph_resume (g : StateGraphDef) (pausedAt : String) (s : GState) : RunResult :=
  match nodeFn g pausedAt, nextNode g pausedAt with
  | some f, some nxt => runFrom g 16 nxt (f s) [pausedAt]
  | _, _ => .stuck

/-- Embedding of `ComplianceOrchestrator._build_graph` (`orchestrator.py`
lines 33-74): the five nodes, the linear edge chain
START → preprocess → dispatch → analysis → scoring → refinement → END, and
`interrupt_before=["refinement_node"]`. -/
def compliance_graph (pre : Except String (List Chunk)) (db : List Rule)
    (evalO : EvalOracle) : StateGraphDef :=
  { nodes := [("preprocess_node", preprocess_node pre),
              ("dispatch_node", dispatch_node db),
              ("analysis_node", analysis_node evalO),
              ("scoring_node", scoring_node),
              ("refinement_node", refinement_node)]
    edges := [("START", "preprocess_node"),
              ("preprocess_node", "dispatch_node"),
              ("dispatch_node", "analysis_node"),
              ("analysis_node", "scoring_node"),
              ("scoring_node", "refinement_node"),
              ("refinement_node", "END")]
    interrupt_before := ["refinement_node"] }

/-- C5: the compiled workflow, started on any state with any oracle
behavior, executes preprocess, dispatch, analysis and scoring and then
suspends before `refinement_node` — the pause is unconditional — and the
refinement step runs only in the resume invocation. -/
theorem workflow_pauses_before_refinement (pre : Except String (List Chunk))
    (db : List Rule) (evalO : EvalOracle) (s : GState) :
    graph_ainvoke (compliance_graph pre db evalO) s =
      .paused "refinement_node"
        (scoring_node (analysis_node evalO (dispatch_node db (preprocess_node pre s))))
        ["preprocess_node", "dispatch_node", "analysis_node", "scoring_node"] ∧
    (∀ s' : GState, graph_resume (compliance_graph pre db evalO) "refinement_node" s' =
      .finished (refinement_node s') ["refinement_node"]) :=
  ⟨rfl, fun _ => rfl⟩

theorem foldl_append_eq_flatten {α : Type} :
    ∀ (l : List (List α)) (a : List α), l.foldl (· ++ ·) a = a ++ l.flatten := by
  intro l
  induction l with
  | nil => intro a; simp
  | cons x t ih =>
    intro a
    simp only [List.foldl_cons, ih, List.flatten_cons]
    rw [List.append_assoc]

theorem analysisViolations_eq (evalO : EvalOracle) (chunks : List Chunk)
    (cats : List String) :
    analysisViolations evalO chunks cats =
      (taskPairs chunks cats).flatMap (fun p =>
        match evalO p.1 p.2 with
        | .ok res => annotateViolations p.2 res
        | .error _ => []) := by
  unfold analysisViolations
  rw [foldl_append_eq_flatten, List.nil_append]
  have hmap : (taskPairs chunks cats).map (fun p => (process_task evalO p.1 p.2).1) =
      (taskPairs chunks cats).map (fun p =>
        match evalO p.1 p.2 with
        | .ok res => annotateViolations p.2 res
        | .error _ => []) := by
    apply List.map_congr_left
    intro p _
    unfold process_task
    cases evalO p.1 p.2 <;> rfl
  rw [hmap]
  rfl

theorem taskPairs_length (chunks : List Chunk) (cats : List String) :
    (taskPairs chunks cats).length = chunks.length * cats.length := by
  induction chunks with
  | nil => simp [taskPairs]
  | cons ch t ih =>
    unfold taskPairs at *
    simp only [List.flatMap_cons, List.length_append, List.length_map, ih,
      List.length_cons]
    ring

/-- C6: task failures are isolated — a failing task contributes no
violations and is recorded as failed with its error, a completed task
contributes exactly its annotated violations, the collected set is the
union over completed tasks, one ledger row exists per chunk × category
task, and the run still reaches the pre-refinement pause with the
accumulated union. -/
theorem task_failure_isolation (evalO : EvalOracle) (chunks : List Chunk)
    (cats : List String) (pre : Except String (List Chunk)) (db : List Rule)
    (s0 : GState) :
    (∀ c ch, (c, ch) ∈ taskPairs chunks cats → ∀ e, evalO c ch = .error e →
      (process_task evalO c ch).1 = []) ∧
    (∀ c ch, (c, ch) ∈ taskPairs chunks cats → ∀ res, evalO c ch = .ok res →
      (process_task evalO c ch).1 = annotateViolations ch res) ∧
    (analysisViolations evalO chunks cats =
      (taskPairs chunks cats).flatMap (fun p =>
        match evalO p.1 p.2 with
        | .ok res => annotateViolations p.2 res
        | .error _ => [])) ∧
    ((analysisLedger evalO chunks cats).length = chunks.length * cats.length) ∧
    ((analysisLedger evalO chunks cats).countP (fun rec => rec.status == "failed") =
      (taskPairs chunks cats).countP (fun p => !(evalO p.1 p.2).isOk)) ∧
    (∀ c ch, (c, ch) ∈ taskPairs chunks cats → ∀ e, evalO c ch = .error e →
      (process_task evalO c ch).2.status = "failed" ∧
      (process_task evalO c ch).2.output = .error e) ∧
    (∀ c ch, (c, ch) ∈ taskPairs chunks cats → ∀ res, evalO c ch = .ok res →
      (process_task evalO c ch).2.status = "completed") ∧
    (∃ sf, graph_ainvoke (compliance_graph pre db evalO) s0 =
        .paused "refinement_node" sf
          ["preprocess_node", "dispatch_node", "analysis_node", "scoring_node"] ∧
      sf.violations = s0.violations ++
        analysisViolations evalO
          (dispatch_node db (preprocess_node pre s0)).chunks
          (activeCategories (dispatch_node db (preprocess_node pre s0)).active_rules)) := by
  refine ⟨?_, ?_, analysisViolations_eq evalO chunks cats, ?_, ?_, ?_, ?_, ?_⟩
  · intro c ch _ e he
    unfold process_task
    rw [he]
  · intro c ch _ res hres
    unfold process_task
    rw [hres]
  · unfold analysisLedger
    rw [List.length_map, taskPairs_length]
  · unfold analysisLedger
    rw [List.countP_map]
    apply List.countP_congr
    intro p _
    cases h : evalO p.1 p.2 <;>
      simp [process_task, h, Except.isOk, Except.toBool, Function.comp]
  · intro c ch _ e he
    unfold process_task
    rw [he]
    exact ⟨rfl, rfl⟩
  · intro c ch _ res hres
    unfold process_task
    rw [hres]
  · refine ⟨scoring_node (analysis_node evalO (dispatch_node db (preprocess_node pre s0))),
      rfl, ?_⟩
    cases pre <;> rfl

/-- Concrete chunk for the C6 witness. -/
def sampleChunk : Chunk :=
  { id := "c1", text := "t", chunk_index := 0, page_number := none }

/-- Concrete always-failing evaluation oracle for the C6 witness. -/
def failingEval : EvalOracle := fun _ _ => .error "boom"

/-- Concrete initial graph state for the C6 witness. -/
def sampleState : GState :=
  { submission_id := "s1", project_id := none, chunks := [], active_rules := [],
    violations := [], scores := none, status := "running", user_feedback := none }

/-- Witness for C6 at a concrete input: a deterministically failing task
contributes no violations and its ledger row is failed with the error
detail. -/
theorem task_failure_isolation_witness :
    (process_task failingEval "irdai" sampleChunk).1 = [] ∧
    (process_task failingEval "irdai" sampleChunk).2.status = "failed" ∧
    (process_task failingEval "irdai" sampleChunk).2.output = .error "boom" := by
  have h := task_failure_isolation failingEval [sampleChunk] ["irdai"]
    (.ok []) [] sampleState
  have hmem : ("irdai", sampleChunk) ∈ taskPairs [sampleChunk] ["irdai"] := by
    decide
  exact ⟨h.1 "irdai" sampleChunk hmem "boom" rfl,
    (h.2.2.2.2.2.1 "irdai" sampleChunk hmem "boom" rfl).1,
    (h.2.2.2.2.2.1 "irdai" sampleChunk hmem "boom" rfl).2⟩

/-- Chat message dict (`llm_service.py` `_build_chat_messages`). -/
structure ChatMsg where
  role : String
  content : String
deriving DecidableEq, Repr

/-- Retry bound of `generate_structured_response` (`llm_service.py`
line 113). -/
def max_retries : ℕ := 3

/-- Error feedback appended before a retry (`llm_service.py` line 192). -/
def retry_feedback (e : String) : String :=
  "\n\nPrevious response was invalid JSON or did not match schema. Error: " ++
    e ++ ". \nPlease CORRECT the JSON output."

/-- Combined outcome of one attempt: the chat-completions call
(`llm_service.py` line 119, an exception becomes `.error`), then JSON
cleanup plus schema validation (`llm_service.py` lines 155-166, abstracted
as the deterministic `validateO`). -/
def attemptResult {T : Type} (callO : List ChatMsg → Except String String)
    (validateO : String → Except String T) (msgs : List ChatMsg) : Except String T :=
  match callO msgs with
  | .error e => .error e
  | .ok text => validateO text

/-- Embedding of the retry loop of `generate_structured_response`
(`llm_service.py` lines 116-197). `remaining` counts the attempts left
(initially `max_retries`; `remaining = 1` is the `attempt == max_retries-1`
last attempt, whose failure is re-raised). `lastResp` models the Python
local `response_text`, which survives across loop iterations, so a call
failure replays the most recent response (or `""`) into the assistant
message. Returns the result and the list of message contexts attempted. -/
def generate_structured_go {T : Type} (callO : List ChatMsg → Except String String)
    (validateO : String → Except String T) :
    ℕ → List ChatMsg → Option String → Except String T × List (List ChatMsg)
  | 0, _, _ => (.error "retries exhausted", [])
  | remaining + 1, msgs, lastResp =>
    match callO msgs with
    | .ok text =>
      match validateO text with
      | .ok r => (.ok r, [msgs])
      | .error e =>
        if remaining = 0 then (.error e, [msgs])
        else
          let rest := generate_structured_go callO validateO remaining
            (msgs ++ [⟨"assistant", text⟩, ⟨"user", retry_feedback e⟩]) (some text)
          (rest.1, msgs :: rest.2)
    | .error e =>
      if remaining = 0 then (.error e, [msgs])
      else
        let rest := generate_structured_go callO validateO remaining
          (msgs ++ [⟨"assistant", lastResp.getD ""⟩, ⟨"user", retry_feedback e⟩]) lastResp
        (rest.1, msgs :: rest.2)

/-- Embedding of `LLMService.generate_structured_response`
(`llm_service.py` lines 83-197), returning the result together with the
attempted contexts. -/
def generate_structured_response {T : Type} (callO : List ChatMsg → Except String String)
    (validateO : String → Except String T) (messages : List ChatMsg) :
    Except String T × List (List ChatMsg) :=
  generate_structured_go callO validateO max_retries messages none

/-- One retry transition: the earlier context failed and the next context
is the same messages extended by the assistant response replay and the
error feedback. -/
def retryStep {T : Type} (callO : List ChatMsg → Except String String)
    (validateO : String → Except String T) (c1 c2 : List ChatMsg) : Prop :=
  ∃ e r, attemptResult callO validateO c1 = .error e ∧
    c2 = c1 ++ [⟨"assistant", r⟩, ⟨"user", retry_feedback e⟩]

theorem generate_structured_go_spec {T : Type}
    (callO : List ChatMsg → Except String String)
    (validateO : String → Except String T) :
    ∀ (remaining : ℕ) (msgs : List ChatMsg) (lastResp : Option String),
      1 ≤ remaining →
      (1 ≤ (generate_structured_go callO validateO remaining msgs lastResp).2.length ∧
        (generate_structured_go callO validateO remaining msgs lastResp).2.length ≤ remaining) ∧
      (generate_structured_go callO validateO remaining msgs lastResp).2.head? = some msgs ∧
      List.Chain' (retryStep callO validateO)
        (generate_structured_go callO validateO remaining msgs lastResp).2 ∧
      (∀ e, (generate_structured_go callO validateO remaining msgs lastResp).1 = .error e →
        (generate_structured_go callO validateO remaining msgs lastResp).2.length = remaining ∧
        ∃ cl, (generate_structured_go callO validateO remaining msgs lastResp).2.getLast? = some cl ∧
          attemptResult callO validateO cl = .error e) := by
  intro remaining
  induction remaining with
  | zero => intro msgs lastResp h; exact absurd h (by omega)
  | succ n ih =>
    intro msgs lastResp _
    by_cases hn : n = 0
    · subst hn
      cases hc : callO msgs with
      | error e =>
        simp only [generate_structured_go, hc, if_pos rfl]
        refine ⟨by simp, rfl, List.chain'_singleton msgs, ?_⟩
        intro e' he'
        obtain rfl : e = e' := by simpa using he'
        exact ⟨rfl, msgs, rfl, by simp [attemptResult, hc]⟩
      | ok t =>
        cases hv : validateO t with
        | ok r =>
          simp only [generate_structured_go, hc, hv]
          refine ⟨by simp, rfl, List.chain'_singleton msgs, ?_⟩
          intro e' he'
          cases he'
        | error e =>
          simp only [generate_structured_go, hc, hv, if_pos rfl]
          refine ⟨by simp, rfl, List.chain'_singleton msgs, ?_⟩
          intro e' he'
          obtain rfl : e = e' := by simpa using he'
          exact ⟨rfl, msgs, rfl, by simp [attemptResult, hc, hv]⟩
    · have hn1 : 1 ≤ n := Nat.one_le_iff_ne_zero.mpr hn
      cases hc : callO msgs with
      | error e =>
        simp only [generate_structured_go, hc, if_neg hn]
        obtain ⟨⟨hl1, hl2⟩, hhead, hchain, herr⟩ :=
          ih (msgs ++ [⟨"assistant", lastResp.getD ""⟩, ⟨"user", retry_feedback e⟩])
            lastResp hn1
        refine ⟨⟨by rw [List.length_cons]; omega, by rw [List.length_cons]; omega⟩, rfl, ?_, ?_⟩
        · rw [List.chain'_cons']
          refine ⟨?_, hchain⟩
          intro b hb
          rw [hhead] at hb
          obtain rfl : _ = b := by simpa using hb
          exact ⟨e, lastResp.getD "", by simp [attemptResult, hc], rfl⟩
        · intro e' he'
          obtain ⟨hlen, cl, hcl, hatt⟩ := herr e' he'
          refine ⟨by rw [List.length_cons, hlen], cl, ?_, hatt⟩
          rcases hrest : (generate_structured_go callO validateO n
              (msgs ++ [⟨"assistant", lastResp.getD ""⟩, ⟨"user", retry_feedback e⟩])
              lastResp).2 with _ | ⟨x, xs⟩
          · rw [hrest] at hl1; simp at hl1
          · rw [hrest] at hcl
            rw [hrest, List.getLast?_cons_cons]
            exact hcl
      | ok t =>
        cases hv : validateO t with
        | ok r =>
          simp only [generate_structured_go, hc, hv]
          refine ⟨by simp, rfl, List.chain'_singleton msgs, ?_⟩
          intro e' he'
          cases he'
        | error e =>
          simp only [generate_structured_go, hc, hv, if_neg hn]
          obtain ⟨⟨hl1, hl2⟩, hhead, hchain, herr⟩ :=
            ih (msgs ++ [⟨"assistant", t⟩, ⟨"user", retry_feedback e⟩]) (some t) hn1
          refine ⟨⟨by rw [List.length_cons]; omega, by rw [List.length_cons]; omega⟩, rfl, ?_, ?_⟩
          · rw [List.chain'_cons']
            refine ⟨?_, hchain⟩
            intro b hb
            rw [hhead] at hb
            obtain rfl : _ = b := by simpa using hb
            exact ⟨e, t, by simp [attemptResult, hc, hv], rfl⟩
          · intro e' he'
            obtain ⟨hlen, cl, hcl, hatt⟩ := herr e' he'
            refine ⟨by rw [List.length_cons, hlen], cl, ?_, hatt⟩
            rcases hrest : (generate_structured_go callO validateO n
                (msgs ++ [⟨"assistant", t⟩, ⟨"user", retry_feedback e⟩])
                (some t)).2 with _ | ⟨x, xs⟩
            · rw [hrest] at hl1; simp at hl1
            · rw [hrest] at hcl
              rw [hrest, List.getLast?_cons_cons]
              exact hcl

/-- C7: a structured-output generation makes at most 3 attempts in total,
each retry's context is the previous context extended by the replayed
response and the validation error feedback, and when the final attempt
still fails, the error is raised to the caller (with all 3 attempts
spent). -/
theorem structured_retry_bounded {T : Type}
    (callO : List ChatMsg → Except String String)
    (validateO : String → Except String T) (messages : List ChatMsg) :
    (1 ≤ (generate_structured_response callO validateO messages).2.length ∧
      (generate_structured_response callO validateO messages).2.length ≤ max_retries) ∧
    (generate_structured_response callO validateO messages).2.head? = some messages ∧
    List.Chain' (retryStep callO validateO)
      (generate_structured_response callO validateO messages).2 ∧
    (∀ e, (generate_structured_response callO validateO messages).1 = .error e →
      (generate_structured_response callO validateO messages).2.length = max_retries ∧
      ∃ cl, (generate_structured_response callO validateO messages).2.getLast? = some cl ∧
        attemptResult callO validateO cl = .error e) :=
  generate_structured_go_spec callO validateO max_retries messages none (by norm_num [max_retries])

/-- Concrete always-failing call oracle for the C7 witness. -/
def downCall : List ChatMsg → Except String String := fun _ => .error "down"

/-- Concrete always-rejecting validator for the C7 witness. -/
def rejectValidate : String → Except String Unit := fun _ => .error "bad"

/-- Witness for C7 at a concrete input: when every attempt's call fails,
exactly 3 attempts are made and the last attempt's error escalates. -/
theorem structured_retry_bounded_witness :
    (generate_structured_response downCall rejectValidate []).2.length = max_retries ∧
    ∃ cl, (generate_structured_response downCall rejectValidate []).2.getLast? = some cl ∧
      attemptResult downCall rejectValidate cl = .error "down" :=
  (structured_retry_bounded downCall rejectValidate []).2.2.2 "down" rfl

/-- Parameter list of `ScoringService.calculate_scores` as defined at
`scoring_service.py` line 26: the single parameter `violations`. -/
def calculate_scores_params : List String := ["violations"]

/-- Python call protocol for `scoring_service.calculate_scores(violations,
db=db)`: the positional argument binds `violations`; a keyword argument
whose name is not among the callee's parameters raises TypeError. -/
def callCalculateScores (violations : List Violation) (kwargs : List String) :
    Except String ScoreDict :=
  if kwargs.all (fun k => k ∈ calculate_scores_params) then
    .ok (calculate_scores violations)
  else
    .error "TypeError: calculate_scores() got an unexpected keyword argument"

/-- Persisted snapshot values of a paused thread (`snapshot.values` in
`get_interim_results`). -/
structure SnapshotValues where
  violations : List AnnotatedViolation
deriving Repr

/-- Interim response dict of `get_interim_results`
(`compliance_engine.py` lines 274-287), restricted to the score fields. -/
structure InterimResults where
  overall_score : ℚ
  irdai_score : ℚ
  brand_score : ℚ
  seo_score : ℚ
  status : String
  grade : String
  violations_count : ℕ
deriving Repr

/-- Embedding of `ComplianceEngine.get_interim_results`
(`compliance_engine.py` lines 227-291): `None` when no snapshot values
exist (line 239-240); otherwise the snapshot's violations are scored with
`scoring_service.calculate_scores(violations, db=db)` (line 246) — a call
carrying the extra keyword argument `db` — inside a `try` whose blanket
`except Exception` returns `None` (lines 289-291). -/
def get_interim_results (snapshot : Option SnapshotValues) : Option InterimResults :=
  match snapshot with
  | none => none
  | some st =>
    match callCalculateScores (st.violations.map toScoringViolation) ["db"] with
    | .ok scores =>
      some { overall_score := scores.overall
             irdai_score := scores.irdai
             brand_score := scores.brand
             seo_score := scores.seo
             status := "waiting_for_review"
             grade := scores.grade
             violations_count := st.violations.length }
    | .error _ => none

/-- C9 (code bug): the interim read returns `None` even when a persisted
snapshot exists, for every snapshot — the `db=db` keyword is not accepted
by `ScoringService.calculate_scores`, the TypeError is swallowed by the
blanket except, and no preview is ever produced; so "None exactly when no
persisted state exists" fails on the code. -/
theorem interim_results_always_none :
    ("db" ∉ calculate_scores_params) ∧
    (∀ st : SnapshotValues, get_interim_results (some st) = none) ∧
    get_interim_results none = none ∧
    get_interim_results (some { violations := [] }) = none :=
  ⟨by decide, fun _ => rfl, rfl, rfl⟩
